import Mathlib

/-!
Shallow embedding of the Solbox gift-card contract
(programs/solbox-contract-devnet/src/lib.rs) together with proofs about
its referral-placement, fund-split and bookkeeping behaviour.

Machine integers: the contract only ever combines u64 values through the
checked_* methods, which are modelled on Nat with an explicit bound
check against 2^64.  Principals (Solana account keys) are modelled as
natural numbers.  The external transfer primitive is modelled by a
boolean success flag per invoke call; a failed instruction makes the
runtime discard every account mutation of the invocation, which is the
commit step in applyOp below.
-/

namespace Solbox

/-- Principals (Solana account keys) are modelled as natural numbers. -/
abbrev Pubkey := Nat

/-- The modulus of the u64 machine integers used by the contract. -/
def U64_MOD : Nat := 18446744073709551616

/-- u64::checked_add: some iff the mathematical sum fits in a u64. -/
def checked_add (a b : Nat) : Option Nat :=
  if a + b < U64_MOD then some (a + b) else none

/-- u64::checked_mul: some iff the mathematical product fits in a u64. -/
def checked_mul (a b : Nat) : Option Nat :=
  if a * b < U64_MOD then some (a * b) else none

/-- u64::checked_sub: some iff there is no underflow. -/
def checked_sub (a b : Nat) : Option Nat :=
  if b ≤ a then some (a - b) else none

/-- u64::checked_div: some (truncating quotient) iff the divisor is nonzero. -/
def checked_div (a b : Nat) : Option Nat :=
  if b = 0 then none else some (a / b)

/-- ContractConfig (lib.rs 413-419). -/
structure ContractConfig where
  referral_limit : Nat
  commission_percentage : Nat
  commission_levels : Nat
  bonus_percentage : Nat
  valid_amounts : List Nat
deriving DecidableEq

/-- ReferralRelationship (lib.rs 422-426). -/
structure ReferralRelationship where
  user : Pubkey
  referrer : Pubkey
  timestamp : Int
deriving DecidableEq

/-- The SolBox singleton account (lib.rs 393-403). -/
structure SolBox where
  owner : Pubkey
  founder_wallet : Pubkey
  paused : Bool
  total_sold : Nat
  total_commission_distributed : Nat
  referral_count : Nat
  config : ContractConfig
  blacklisted_users : List Pubkey
  referral_relationships : List ReferralRelationship
deriving DecidableEq

/-- A User account (lib.rs 406-410). -/
structure User where
  key : Pubkey
  current_package : Nat
  total_earnings : Nat
deriving DecidableEq

/-- CustomError (lib.rs 569-588). -/
inductive CustomError where
  | ContractPaused
  | Unauthorized
  | InvalidAmount
  | InvalidUpgrade
  | SelfReferralNotAllowed
  | ArithmeticError
  | NoSpilloverAvailable
  | InvalidReferrer
  | UserBlacklisted
deriving DecidableEq

/-- An invocation either fails with a contract error or because one of the
invoked system transfers failed. -/
inductive TxError where
  | custom (e : CustomError)
  | TransferFailed
deriving DecidableEq

/-- One step of the HashMap building loop of find_spillover_position
(lib.rs 599-601): bump the count of one referrer key. -/
def bumpCount (counts : Pubkey → Nat) (k : Pubkey) : Pubkey → Nat :=
  fun p => if p = k then counts p + 1 else counts p

/-- The referral_counts map of find_spillover_position (lib.rs 596-601):
fold over the whole relationship history counting entries per referrer. -/
def referralCounts (relationships : List ReferralRelationship) : Pubkey → Nat :=
  relationships.foldl (fun counts rel => bumpCount counts rel.referrer) (fun _ => 0)

/-- The second loop of find_spillover_position (lib.rs 608-614): return the
referrer of the first relationship whose referrer is below the limit. -/
def find_first_under_limit (counts : Pubkey → Nat) (limit : Nat) :
    List ReferralRelationship → Option Pubkey
  | [] => none
  | rel :: rest =>
      if counts rel.referrer < limit then some rel.referrer
      else find_first_under_limit counts limit rest

/-- find_spillover_position (lib.rs 591-617). -/
def find_spillover_position (relationships : List ReferralRelationship)
    (referrer : Pubkey) (limit : Nat) : Option Pubkey :=
  if referralCounts relationships referrer < limit then some referrer
  else find_first_under_limit (referralCounts relationships) limit relationships

/-- Commission computation of buy_gift_card (lib.rs 184-188):
amount.checked_mul(commission_percentage)?.checked_div(100)?. -/
def compute_commission (amount commission_percentage : Nat) : Option Nat :=
  match checked_mul amount commission_percentage with
  | none => none
  | some m => checked_div m 100

/-- Bonus computation of buy_gift_card (lib.rs 190-194):
amount.checked_mul(bonus_percentage)?.checked_div(100)?. -/
def compute_bonus (amount bonus_percentage : Nat) : Option Nat :=
  match checked_mul amount bonus_percentage with
  | none => none
  | some m => checked_div m 100

/-- Founder share computation of buy_gift_card (lib.rs 248-252):
amount.checked_sub(commission)?.checked_sub(bonus)?. -/
def compute_founder_share (amount commission bonus : Nat) : Option Nat :=
  match checked_sub amount commission with
  | none => none
  | some d => checked_sub d bonus

/-- Lines 196-205 of buy_gift_card: run the spillover search only when the
global referral_count has reached the configured referral_limit, otherwise
keep the requested referrer. -/
def dispatch_referrer (s : SolBox) (referrerKey : Pubkey) : Option Pubkey :=
  if s.config.referral_limit ≤ s.referral_count then
    find_spillover_position s.referral_relationships referrerKey s.config.referral_limit
  else some referrerKey

/-- The whole observable ledger: the SolBox singleton plus the User account
stored at every address (absent accounts read as zeroed records). -/
structure Chain where
  solbox : SolBox
  users : Pubkey → User

/-- Point update of the user-account store. -/
def updateUser (users : Pubkey → User) (k : Pubkey) (u : User) : Pubkey → User :=
  fun p => if p = k then u else users p

/-- initialize (lib.rs 14-43): the freshly initialized SolBox account. -/
def init_solbox (owner founder_wallet : Pubkey) (config : ContractConfig) : SolBox :=
  { owner := owner
    founder_wallet := founder_wallet
    paused := false
    total_sold := 0
    total_commission_distributed := 0
    referral_count := 0
    config := config
    blacklisted_users := []
    referral_relationships := [] }

/-- A freshly initialized ledger: initialize plus zeroed user accounts. -/
def initChain (owner founder : Pubkey) (config : ContractConfig) : Chain :=
  { solbox := init_solbox owner founder config
    users := fun k => { key := k, current_package := 0, total_earnings := 0 } }

/-- update_config (lib.rs 45-70), raw in-memory semantics. -/
def update_config_raw (c : Chain) (admin : Pubkey) (new_config : ContractConfig) :
    Except TxError Unit × Chain :=
  if admin = c.solbox.owner then
    if c.solbox.paused then (.error (.custom .ContractPaused), c)
    else (.ok (), { c with solbox := { c.solbox with config := new_config } })
  else (.error (.custom .Unauthorized), c)

/-- toggle_pause (lib.rs 72-91), raw in-memory semantics. -/
def toggle_pause_raw (c : Chain) (admin : Pubkey) : Except TxError Unit × Chain :=
  if admin = c.solbox.owner then
    (.ok (), { c with solbox := { c.solbox with paused := !c.solbox.paused } })
  else (.error (.custom .Unauthorized), c)

/-- upgrade_package (lib.rs 93-152), raw in-memory semantics.  The system
transfer of the price difference is modelled by the transfer_ok flag. -/
def upgrade_package_raw (c : Chain) (userKey : Pubkey) (new_package : Nat)
    (transfer_ok : Bool) : Except TxError Unit × Chain :=
  if c.solbox.paused then (.error (.custom .ContractPaused), c)
  else if c.solbox.blacklisted_users.contains userKey then
    (.error (.custom .UserBlacklisted), c)
  else if c.solbox.config.valid_amounts.contains new_package then
    if (c.users userKey).current_package < new_package then
      match checked_sub new_package (c.users userKey).current_package with
      | none => (.error (.custom .ArithmeticError), c)
      | some _difference =>
        if transfer_ok then
          (.ok (), { c with users := updateUser c.users userKey { c.users userKey with current_package := new_package } })
        else (.error .TransferFailed, c)
    else (.error (.custom .InvalidUpgrade), c)
  else (.error (.custom .InvalidAmount), c)

/-- The validation and computation phase of buy_gift_card (lib.rs 162-205):
every check and every piece of checked arithmetic that precedes the first
state mutation, yielding commission, bonus and the final referrer. -/
def buy_checks (s : SolBox) (buyer referrerKey : Pubkey) (amount : Nat) :
    Except TxError (Nat × Nat × Pubkey) :=
  if s.paused then .error (.custom .ContractPaused)
  else if s.blacklisted_users.contains buyer then .error (.custom .UserBlacklisted)
  else if s.config.valid_amounts.contains amount then
    if buyer = referrerKey then .error (.custom .SelfReferralNotAllowed)
    else
      match compute_commission amount s.config.commission_percentage with
      | none => .error (.custom .ArithmeticError)
      | some commission =>
        match compute_bonus amount s.config.bonus_percentage with
        | none => .error (.custom .ArithmeticError)
        | some bonus =>
          match dispatch_referrer s referrerKey with
          | none => .error (.custom .NoSpilloverAvailable)
          | some final_referrer => .ok (commission, bonus, final_referrer)
  else .error (.custom .InvalidAmount)

/-- Append of one relationship record (lib.rs 221-225). -/
def pushRel (l : List ReferralRelationship) (b fr : Pubkey) (now : Int) :
    List ReferralRelationship :=
  l ++ [{ user := b, referrer := fr, timestamp := now }]

/-- The ledger after all in-memory mutations of buy_gift_card (lib.rs
207-231): counters bumped, relationship appended, referrer user account
credited. -/
def buy_applied (c : Chain) (buyer refAcctKey : Pubkey) (ts2 tcd2 rc2 te2 : Nat)
    (final_referrer : Pubkey) (now : Int) : Chain :=
  { solbox := { c.solbox with
      total_sold := ts2
      total_commission_distributed := tcd2
      referral_count := rc2
      referral_relationships := pushRel c.solbox.referral_relationships buyer final_referrer now }
    users := updateUser c.users refAcctKey { c.users refAcctKey with total_earnings := te2 } }

/-- The mutation phase of buy_gift_card (lib.rs 207-276), raw in-memory
semantics: counters, relationship append and referrer earnings are mutated
in source order, then the commission transfer, the founder-share
computation and the founder transfer run; an error after a mutation leaves
the partial in-memory state in place (the runtime rollback is applyOp). -/
def buy_mutate (c : Chain) (buyer refAcctKey : Pubkey)
    (amount commission bonus : Nat) (final_referrer : Pubkey) (now : Int)
    (t1ok t2ok : Bool) : Except TxError Unit × Chain :=
  match checked_add c.solbox.total_sold amount with
  | none => (.error (.custom .ArithmeticError), c)
  | some ts2 =>
    match checked_add c.solbox.total_commission_distributed commission with
    | none => (.error (.custom .ArithmeticError),
        { c with solbox := { c.solbox with total_sold := ts2 } })
    | some tcd2 =>
      match checked_add c.solbox.referral_count 1 with
      | none => (.error (.custom .ArithmeticError),
          { c with solbox := { c.solbox with
              total_sold := ts2
              total_commission_distributed := tcd2 } })
      | some rc2 =>
        match checked_add (c.users refAcctKey).total_earnings commission with
        | none => (.error (.custom .ArithmeticError),
            { c with solbox := { c.solbox with
                total_sold := ts2
                total_commission_distributed := tcd2
                referral_count := rc2
                referral_relationships := pushRel c.solbox.referral_relationships buyer final_referrer now } })
        | some te2 =>
          if t1ok then
            match checked_sub amount commission with
            | none => (.error (.custom .ArithmeticError),
                buy_applied c buyer refAcctKey ts2 tcd2 rc2 te2 final_referrer now)
            | some d1 =>
              match checked_sub d1 bonus with
              | none => (.error (.custom .ArithmeticError),
                  buy_applied c buyer refAcctKey ts2 tcd2 rc2 te2 final_referrer now)
              | some _founder_share =>
                if t2ok then
                  (.ok (), buy_applied c buyer refAcctKey ts2 tcd2 rc2 te2 final_referrer now)
                else (.error .TransferFailed,
                  buy_applied c buyer refAcctKey ts2 tcd2 rc2 te2 final_referrer now)
          else (.error .TransferFailed,
            buy_applied c buyer refAcctKey ts2 tcd2 rc2 te2 final_referrer now)

/-- buy_gift_card (lib.rs 154-277), raw in-memory semantics. -/
def buy_gift_card_raw (c : Chain) (buyer referrerKey refAcctKey : Pubkey)
    (amount : Nat) (now : Int) (t1ok t2ok : Bool) : Except TxError Unit × Chain :=
  match buy_checks c.solbox buyer referrerKey amount with
  | .error e => (.error e, c)
  | .ok (commission, bonus, final_referrer) =>
      buy_mutate c buyer refAcctKey amount commission bonus final_referrer now t1ok t2ok

/-- grant_package (lib.rs 279-310), raw in-memory semantics.  The mutated
account is the user account passed in the AdminAction context; the pubkey
argument of the instruction is only echoed into the event. -/
def grant_package_raw (c : Chain) (admin targetKey : Pubkey) (package : Nat) :
    Except TxError Unit × Chain :=
  if admin = c.solbox.owner then
    if c.solbox.config.valid_amounts.contains package then
      (.ok (), { c with users := updateUser c.users targetKey { c.users targetKey with current_package := package } })
    else (.error (.custom .InvalidAmount), c)
  else (.error (.custom .Unauthorized), c)

/-- update_commission_config (lib.rs 312-337), raw in-memory semantics:
owner check only, then both commission fields are overwritten. -/
def update_commission_config_raw (c : Chain) (admin : Pubkey)
    (new_percentage new_levels : Nat) : Except TxError Unit × Chain :=
  if admin = c.solbox.owner then
    (.ok (), { c with solbox := { c.solbox with config := { c.solbox.config with commission_percentage := new_percentage, commission_levels := new_levels } } })
  else (.error (.custom .Unauthorized), c)

/-- add_to_blacklist (lib.rs 339-364), raw in-memory semantics. -/
def add_to_blacklist_raw (c : Chain) (admin userKey : Pubkey) :
    Except TxError Unit × Chain :=
  if admin = c.solbox.owner then
    if c.solbox.blacklisted_users.contains userKey then (.ok (), c)
    else (.ok (), { c with solbox := { c.solbox with
        blacklisted_users := c.solbox.blacklisted_users ++ [userKey] } })
  else (.error (.custom .Unauthorized), c)

/-- remove_from_blacklist (lib.rs 366-389), raw in-memory semantics. -/
def remove_from_blacklist_raw (c : Chain) (admin userKey : Pubkey) :
    Except TxError Unit × Chain :=
  if admin = c.solbox.owner then
    (.ok (), { c with solbox := { c.solbox with
        blacklisted_users := c.solbox.blacklisted_users.filter (fun x => x ≠ userKey) } })
  else (.error (.custom .Unauthorized), c)

/-- One instruction of the operation surface, with its caller identity,
payload, the clock reading and the outcome flags of the modelled external
transfers. -/
inductive Op where
  | updateConfig (admin : Pubkey) (new_config : ContractConfig)
  | togglePause (admin : Pubkey)
  | upgradePackage (userKey : Pubkey) (new_package : Nat) (transfer_ok : Bool)
  | buyGiftCard (buyer referrerKey refAcctKey : Pubkey) (amount : Nat)
      (now : Int) (t1ok t2ok : Bool)
  | grantPackage (admin targetKey : Pubkey) (package : Nat)
  | updateCommissionConfig (admin : Pubkey) (new_percentage new_levels : Nat)
  | addToBlacklist (admin userKey : Pubkey)
  | removeFromBlacklist (admin userKey : Pubkey)

/-- Raw in-memory execution of one instruction. -/
def applyOp_raw (c : Chain) : Op → Except TxError Unit × Chain
  | Op.updateConfig admin new_config => update_config_raw c admin new_config
  | Op.togglePause admin => toggle_pause_raw c admin
  | Op.upgradePackage userKey new_package transfer_ok =>
      upgrade_package_raw c userKey new_package transfer_ok
  | Op.buyGiftCard buyer referrerKey refAcctKey amount now t1ok t2ok =>
      buy_gift_card_raw c buyer referrerKey refAcctKey amount now t1ok t2ok
  | Op.grantPackage admin targetKey package => grant_package_raw c admin targetKey package
  | Op.updateCommissionConfig admin p l => update_commission_config_raw c admin p l
  | Op.addToBlacklist admin u => add_to_blacklist_raw c admin u
  | Op.removeFromBlacklist admin u => remove_from_blacklist_raw c admin u

/-- Committed execution of one instruction: a failed instruction makes the
runtime discard every account mutation, so the observable post-state of a
failed call is the pre-state. -/
def applyOp (c : Chain) (op : Op) : Except TxError Unit × Chain :=
  match applyOp_raw c op with
  | (.error e, _) => (.error e, c)
  | (.ok u, c2) => (.ok u, c2)

/-- Committed execution of a sequence of instructions. -/
def runOps (c : Chain) : List Op → Chain
  | [] => c
  | op :: rest => runOps (applyOp c op).2 rest

/-- A small configuration used by the concrete witnesses below. -/
def cfg0 : ContractConfig :=
  { referral_limit := 3
    commission_percentage := 10
    commission_levels := 1
    bonus_percentage := 5
    valid_amounts := [200, 1000, 3000] }

/-- A freshly initialized ledger used by the concrete witnesses below. -/
def chain0 : Chain := initChain 1 2 cfg0

/-- Buyer 5 purchases a 200 card naming referrer 6; both transfers succeed. -/
def buyU : Op := Op.buyGiftCard 5 6 6 200 0 true true

/-- Same purchase but the commission transfer fails. -/
def buyFailT1 : Op := Op.buyGiftCard 5 6 6 200 0 false true

/-- A paused ledger owned by principal 1. -/
def solboxPaused : SolBox :=
  { owner := 1
    founder_wallet := 2
    paused := true
    total_sold := 0
    total_commission_distributed := 0
    referral_count := 0
    config := cfg0
    blacklisted_users := []
    referral_relationships := [] }

/-- The paused ledger with zeroed user accounts. -/
def chainPaused : Chain :=
  { solbox := solboxPaused
    users := fun k => { key := k, current_package := 0, total_earnings := 0 } }

/-- A relationship history where referrer 1 is saturated (three entries at
limit 3) and referrer 2 still has capacity. -/
def relsW : List ReferralRelationship :=
  [{ user := 10, referrer := 1, timestamp := 0 },
   { user := 11, referrer := 1, timestamp := 0 },
   { user := 12, referrer := 1, timestamp := 0 },
   { user := 13, referrer := 2, timestamp := 0 }]

/-- A configuration with referral_limit 1, for the exhaustion witness. -/
def cfgEx : ContractConfig :=
  { referral_limit := 1
    commission_percentage := 10
    commission_levels := 1
    bonus_percentage := 5
    valid_amounts := [200, 1000, 3000] }

/-- A ledger in which the single recorded referrer 7 is at capacity. -/
def solboxEx : SolBox :=
  { owner := 1
    founder_wallet := 2
    paused := false
    total_sold := 200
    total_commission_distributed := 20
    referral_count := 1
    config := cfgEx
    blacklisted_users := []
    referral_relationships := [{ user := 10, referrer := 7, timestamp := 0 }] }

/-- The exhausted ledger with zeroed user accounts. -/
def chainEx : Chain :=
  { solbox := solboxEx
    users := fun k => { key := k, current_package := 0, total_earnings := 0 } }

/-- A paused ledger whose blacklist holds user 5 while user 5 already owns
the 3000 package: grant_package still succeeds and can downgrade. -/
def chainGrant : Chain :=
  { solbox := { solboxPaused with blacklisted_users := [5] }
    users := fun k =>
      if k = 5 then { key := 5, current_package := 3000, total_earnings := 0 }
      else { key := k, current_package := 0, total_earnings := 0 } }

theorem checked_add_some {a b s : Nat} (h : checked_add a b = some s) :
    s = a + b ∧ a + b < U64_MOD := by
  unfold checked_add at h
  split at h
  next hlt => exact ⟨(Option.some.inj h).symm, hlt⟩
  next => cases h

theorem checked_mul_some {a b s : Nat} (h : checked_mul a b = some s) :
    s = a * b ∧ a * b < U64_MOD := by
  unfold checked_mul at h
  split at h
  next hlt => exact ⟨(Option.some.inj h).symm, hlt⟩
  next => cases h

theorem checked_sub_some {a b s : Nat} (h : checked_sub a b = some s) :
    b ≤ a ∧ s = a - b := by
  unfold checked_sub at h
  split at h
  next hle => exact ⟨hle, (Option.some.inj h).symm⟩
  next => cases h

theorem checked_div_some {a b s : Nat} (h : checked_div a b = some s) :
    b ≠ 0 ∧ s = a / b := by
  unfold checked_div at h
  split at h
  next => cases h
  next hne => exact ⟨hne, (Option.some.inj h).symm⟩

theorem referralCounts_foldl (l : List ReferralRelationship) (acc : Pubkey → Nat)
    (p : Pubkey) :
    List.foldl (fun counts rel => bumpCount counts rel.referrer) acc l p =
      acc p + (l.filter (fun rel => rel.referrer == p)).length := by
  induction l generalizing acc with
  | nil => simp
  | cons r t ih =>
      simp only [List.foldl_cons, List.filter_cons, ih]
      by_cases hp : p = r.referrer
      · simp [bumpCount, hp]
        omega
      · have hp2 : ¬ (r.referrer == p) = true := by
          simp [beq_iff_eq]
          exact fun h => hp h.symm
        simp [bumpCount, hp, hp2]

theorem referralCounts_eq_filter (l : List ReferralRelationship) (p : Pubkey) :
    referralCounts l p = (l.filter (fun rel => rel.referrer == p)).length := by
  simpa using referralCounts_foldl l (fun _ => 0) p

theorem referralCounts_le_length (l : List ReferralRelationship) (p : Pubkey) :
    referralCounts l p ≤ l.length := by
  rw [referralCounts_eq_filter]
  exact List.length_filter_le _ _

theorem find_first_under_limit_none (counts : Pubkey → Nat) (limit : Nat)
    (l : List ReferralRelationship)
    (h : ∀ rel ∈ l, ¬ counts rel.referrer < limit) :
    find_first_under_limit counts limit l = none := by
  induction l with
  | nil => rfl
  | cons r t ih =>
      unfold find_first_under_limit
      rw [if_neg (h r (List.mem_cons_self r t))]
      exact ih fun rel hrel => h rel (List.mem_cons_of_mem r hrel)

theorem find_first_under_limit_spec (counts : Pubkey → Nat) (limit : Nat)
    (l : List ReferralRelationship) (hex : ∃ e ∈ l, counts e.referrer < limit) :
    ∃ i, ∃ hi : i < l.length,
      find_first_under_limit counts limit l = some (l.get ⟨i, hi⟩).referrer ∧
      counts (l.get ⟨i, hi⟩).referrer < limit ∧
      ∀ j, (hj : j < l.length) → j < i → ¬ counts (l.get ⟨j, hj⟩).referrer < limit := by
  induction l with
  | nil => simp at hex
  | cons r t ih =>
      by_cases hr : counts r.referrer < limit
      · refine ⟨0, by simp, ?_, by simpa using hr, ?_⟩
        · unfold find_first_under_limit
          rw [if_pos hr]
          simp
        · intro j hj hj0
          exact absurd hj0 (Nat.not_lt_zero j)
      · have hex2 : ∃ e ∈ t, counts e.referrer < limit := by
          rcases hex with ⟨e, he, hce⟩
          rcases List.mem_cons.mp he with he0 | he1
          · exact absurd (he0 ▸ hce) hr
          · exact ⟨e, he1, hce⟩
        obtain ⟨i, hi, h1, h2, h3⟩ := ih hex2
        refine ⟨i + 1, by simpa using Nat.succ_lt_succ hi, ?_, ?_, ?_⟩
        · unfold find_first_under_limit
          rw [if_neg hr]
          simpa using h1
        · simpa using h2
        · intro j hj hji
          cases j with
          | zero => simpa using hr
          | succ k =>
              have hk : k < t.length := by simpa using hj
              have : ¬ counts (t.get ⟨k, hk⟩).referrer < limit :=
                h3 k hk (Nat.lt_of_succ_lt_succ hji)
              simpa using this

/-- C1: for every amount and config with commission_percentage +
bonus_percentage at most 100 such that the checked arithmetic of
buy_gift_card succeeds, the computed commission, bonus and founder share
sum to the amount exactly. -/
theorem split_exactness (amount cp bp c b f : Nat)
    (hpct : cp + bp ≤ 100)
    (hc : compute_commission amount cp = some c)
    (hb : compute_bonus amount bp = some b)
    (hf : compute_founder_share amount c b = some f) :
    c + b + f = amount := by
  unfold compute_founder_share at hf
  cases hd : checked_sub amount c with
  | none => rw [hd] at hf; cases hf
  | some d =>
      rw [hd] at hf
      obtain ⟨hca, hdv⟩ := checked_sub_some hd
      obtain ⟨hbd, hfv⟩ := checked_sub_some hf
      omega

/-- Witness for C1 at scenario A of the spec: amount 200000000, commission
percentage 90, bonus percentage 5. -/
theorem split_exactness_witness :
    (90 + 5 ≤ 100 ∧
     compute_commission 200000000 90 = some 180000000 ∧
     compute_bonus 200000000 5 = some 10000000 ∧
     compute_founder_share 200000000 180000000 10000000 = some 10000000) ∧
    180000000 + 10000000 + 10000000 = 200000000 :=
  ⟨⟨by decide, by decide, by decide, by decide⟩,
   split_exactness 200000000 90 5 180000000 10000000 10000000
     (by decide) (by decide) (by decide) (by decide)⟩

/-- C2: when the requested referrer R already holds at least limit
relationships and some referrer in the history is under capacity,
find_spillover_position returns the referrer of the first relationship
entry (in insertion order) whose referrer is under capacity, and that
referrer is never R. -/
theorem spillover_first_fit (rels : List ReferralRelationship) (R : Pubkey)
    (limit : Nat) (hR : limit ≤ referralCounts rels R)
    (hE : ∃ e ∈ rels, referralCounts rels e.referrer < limit) :
    ∃ i, ∃ hi : i < rels.length,
      find_spillover_position rels R limit = some (rels.get ⟨i, hi⟩).referrer ∧
      referralCounts rels (rels.get ⟨i, hi⟩).referrer < limit ∧
      (∀ j, (hj : j < rels.length) → j < i →
        ¬ referralCounts rels (rels.get ⟨j, hj⟩).referrer < limit) ∧
      (rels.get ⟨i, hi⟩).referrer ≠ R := by
  obtain ⟨i, hi, h1, h2, h3⟩ := find_first_under_limit_spec (referralCounts rels) limit rels hE
  refine ⟨i, hi, ?_, h2, h3, ?_⟩
  · unfold find_spillover_position
    rw [if_neg (Nat.not_lt.mpr hR)]
    exact h1
  · intro hcontra
    rw [hcontra] at h2
    exact absurd hR (Nat.not_le.mpr h2)

/-- Witness for C2: referrer 1 is saturated at limit 3 and the first
under-capacity entry of the history is the fourth one, referrer 2. -/
theorem spillover_first_fit_witness :
    (3 ≤ referralCounts relsW 1 ∧
     ∃ e ∈ relsW, referralCounts relsW e.referrer < 3) ∧
    (∃ i, ∃ hi : i < relsW.length,
      find_spillover_position relsW 1 3 = some (relsW.get ⟨i, hi⟩).referrer ∧
      referralCounts relsW (relsW.get ⟨i, hi⟩).referrer < 3 ∧
      (∀ j, (hj : j < relsW.length) → j < i →
        ¬ referralCounts relsW (relsW.get ⟨j, hj⟩).referrer < 3) ∧
      (relsW.get ⟨i, hi⟩).referrer ≠ 1) :=
  ⟨⟨by decide, by decide⟩,
   spillover_first_fit relsW 1 3 (by decide) (by decide)⟩

theorem applyOp_split (c : Chain) (op : Op) :
    (∃ e, applyOp c op = (.error e, c)) ∨
      ((applyOp_raw c op).1 = .ok () ∧ applyOp c op = applyOp_raw c op) := by
  unfold applyOp
  cases hr : applyOp_raw c op with
  | mk res c2 =>
      cases res with
      | error e => exact Or.inl ⟨e, rfl⟩
      | ok u => cases u; exact Or.inr ⟨rfl, rfl⟩

/-- C3: every operation that returns an error leaves the committed ledger
state — the SolBox account and every User account — exactly as it was
before the call; a failed instruction is rolled back by the runtime, so no
partial mutation is observable. -/
theorem failed_op_state_unchanged (c : Chain) (op : Op) (e : TxError)
    (h : (applyOp c op).1 = .error e) : (applyOp c op).2 = c := by
  rcases applyOp_split c op with ⟨e2, hE⟩ | ⟨hok, heq⟩
  · rw [hE]
  · rw [heq] at h
    rw [hok] at h
    cases h

/-- Witness for C3: a purchase whose commission transfer fails — an error
raised after all in-memory mutations — observably changes nothing. -/
theorem failed_op_state_unchanged_witness :
    (applyOp chain0 buyFailT1).1 = .error .TransferFailed ∧
    (applyOp chain0 buyFailT1).2 = chain0 :=
  ⟨rfl, failed_op_state_unchanged chain0 buyFailT1 .TransferFailed rfl⟩

/-- Counterexample to C4 as stated: on a paused ledger the owner's
update_commission_config call succeeds and changes the configuration,
instead of failing with ContractPaused as update_config does. -/
theorem update_commission_config_paused_cex :
    chainPaused.solbox.paused = true ∧
    (applyOp chainPaused (Op.updateCommissionConfig 1 50 2)).1 = .ok () ∧
    (applyOp chainPaused (Op.updateCommissionConfig 1 50 2)).2.solbox.config.commission_percentage = 50 ∧
    chainPaused.solbox.config.commission_percentage = 10 :=
  ⟨rfl, rfl, rfl, rfl⟩

/-- C4 amended: update_commission_config performs no pause check at all —
an owner call succeeds even while the contract is paused and overwrites
both commission fields — whereas update_config called while paused fails
with ContractPaused and leaves the ledger unchanged. -/
theorem update_commission_config_ignores_pause (c : Chain) (admin : Pubkey)
    (pct lv : Nat) (cfg : ContractConfig) (hadm : admin = c.solbox.owner) :
    (applyOp c (Op.updateCommissionConfig admin pct lv)).1 = .ok () ∧
    (applyOp c (Op.updateCommissionConfig admin pct lv)).2.solbox.config.commission_percentage = pct ∧
    (applyOp c (Op.updateCommissionConfig admin pct lv)).2.solbox.config.commission_levels = lv ∧
    (c.solbox.paused = true →
      applyOp c (Op.updateConfig admin cfg) = (.error (.custom .ContractPaused), c)) := by
  have hraw : applyOp_raw c (Op.updateCommissionConfig admin pct lv) =
      (.ok (), { c with solbox := { c.solbox with config := { c.solbox.config with commission_percentage := pct, commission_levels := lv } } }) := by
    show update_commission_config_raw c admin pct lv = _
    unfold update_commission_config_raw
    rw [if_pos hadm]
  refine ⟨?_, ?_, ?_, ?_⟩
  · simp [applyOp, hraw]
  · simp [applyOp, hraw]
  · simp [applyOp, hraw]
  · intro hp
    have hraw2 : applyOp_raw c (Op.updateConfig admin cfg) =
        (.error (.custom .ContractPaused), c) := by
      show update_config_raw c admin cfg = _
      unfold update_config_raw
      rw [if_pos hadm, if_pos hp]
    simp [applyOp, hraw2]

/-- Witness for C4 amended, on the concrete paused ledger. -/
theorem update_commission_config_ignores_pause_witness :
    ((1 : Pubkey) = chainPaused.solbox.owner) ∧
    ((applyOp chainPaused (Op.updateCommissionConfig 1 7 4)).1 = .ok () ∧
     (applyOp chainPaused (Op.updateCommissionConfig 1 7 4)).2.solbox.config.commission_percentage = 7 ∧
     (applyOp chainPaused (Op.updateCommissionConfig 1 7 4)).2.solbox.config.commission_levels = 4 ∧
     (chainPaused.solbox.paused = true →
       applyOp chainPaused (Op.updateConfig 1 cfg0) = (.error (.custom .ContractPaused), chainPaused))) :=
  ⟨rfl, update_commission_config_ignores_pause chainPaused 1 7 4 cfg0 rfl⟩

/-- C7: provided the stored referral_count equals the length of the
relationship history (the bookkeeping invariant), the guarded dispatch of
buy_gift_card — spillover search only once the global count is at or above
the limit, otherwise the requested referrer — agrees with running
find_spillover_position unconditionally. -/
theorem dispatch_equiv (s : SolBox) (R : Pubkey)
    (hc : s.referral_count = s.referral_relationships.length) :
    dispatch_referrer s R =
      find_spillover_position s.referral_relationships R s.config.referral_limit := by
  unfold dispatch_referrer
  split
  · rfl
  next hlt =>
    have hcount := referralCounts_le_length s.referral_relationships R
    have h1 : referralCounts s.referral_relationships R < s.config.referral_limit := by
      omega
    unfold find_spillover_position
    rw [if_pos h1]

/-- Witness for C7 on the concrete saturated ledger. -/
theorem dispatch_equiv_witness :
    (solboxEx.referral_count = solboxEx.referral_relationships.length) ∧
    dispatch_referrer solboxEx 7 =
      find_spillover_position solboxEx.referral_relationships 7 solboxEx.config.referral_limit :=
  ⟨rfl, dispatch_equiv solboxEx 7 rfl⟩

theorem buy_checks_ok {s : SolBox} {buyer referrerKey : Pubkey} {amount cm bn : Nat}
    {fr : Pubkey} (h : buy_checks s buyer referrerKey amount = .ok (cm, bn, fr)) :
    s.paused = false ∧
    s.blacklisted_users.contains buyer = false ∧
    s.config.valid_amounts.contains amount = true ∧
    buyer ≠ referrerKey ∧
    compute_commission amount s.config.commission_percentage = some cm ∧
    compute_bonus amount s.config.bonus_percentage = some bn ∧
    dispatch_referrer s referrerKey = some fr := by
  unfold buy_checks at h
  by_cases h1 : s.paused = true
  · rw [if_pos h1] at h; cases h
  rw [if_neg h1] at h
  by_cases h2 : s.blacklisted_users.contains buyer = true
  · rw [if_pos h2] at h; cases h
  rw [if_neg h2] at h
  by_cases h3 : s.config.valid_amounts.contains amount = true
  · rw [if_pos h3] at h
    by_cases h4 : buyer = referrerKey
    · rw [if_pos h4] at h; cases h
    rw [if_neg h4] at h
    cases h5 : compute_commission amount s.config.commission_percentage with
    | none => simp [h5] at h
    | some cm0 =>
        simp only [h5] at h
        cases h6 : compute_bonus amount s.config.bonus_percentage with
        | none => simp [h6] at h
        | some bn0 =>
            simp only [h6] at h
            cases h7 : dispatch_referrer s referrerKey with
            | none => simp [h7] at h
            | some fr0 =>
                simp only [h7, Except.ok.injEq, Prod.mk.injEq] at h
                obtain ⟨e1, e2, e3⟩ := h
                subst e1; subst e2; subst e3
                exact ⟨by simpa using h1, by simpa using h2, h3, h4, rfl, rfl, rfl⟩
  · rw [if_neg h3] at h; cases h

theorem buy_mutate_ok {c : Chain} {buyer refAcctKey : Pubkey}
    {amount cm bn : Nat} {fr : Pubkey} {now : Int} {t1 t2 : Bool}
    (h : (buy_mutate c buyer refAcctKey amount cm bn fr now t1 t2).1 = .ok ()) :
    cm ≤ amount ∧
    (buy_mutate c buyer refAcctKey amount cm bn fr now t1 t2).2 =
      buy_applied c buyer refAcctKey (c.solbox.total_sold + amount)
        (c.solbox.total_commission_distributed + cm)
        (c.solbox.referral_count + 1)
        ((c.users refAcctKey).total_earnings + cm) fr now := by
  unfold buy_mutate at h ⊢
  cases h1 : checked_add c.solbox.total_sold amount with
  | none => simp [h1] at h
  | some ts2 =>
      simp only [h1] at h ⊢
      cases h2 : checked_add c.solbox.total_commission_distributed cm with
      | none => simp [h2] at h
      | some tcd2 =>
          simp only [h2] at h ⊢
          cases h3 : checked_add c.solbox.referral_count 1 with
          | none => simp [h3] at h
          | some rc2 =>
              simp only [h3] at h ⊢
              cases h4 : checked_add (c.users refAcctKey).total_earnings cm with
              | none => simp [h4] at h
              | some te2 =>
                  simp only [h4] at h ⊢
                  by_cases ht1 : t1 = true
                  · rw [if_pos ht1] at h ⊢
                    cases h5 : checked_sub amount cm with
                    | none => simp [h5] at h
                    | some d1 =>
                        simp only [h5] at h ⊢
                        cases h6 : checked_sub d1 bn with
                        | none => simp [h6] at h
                        | some fs =>
                            simp only [h6] at h ⊢
                            by_cases ht2 : t2 = true
                            · rw [if_pos ht2]
                              obtain ⟨e1, _⟩ := checked_add_some h1
                              obtain ⟨e2, _⟩ := checked_add_some h2
                              obtain ⟨e3, _⟩ := checked_add_some h3
                              obtain ⟨e4, _⟩ := checked_add_some h4
                              obtain ⟨hle, _⟩ := checked_sub_some h5
                              subst e1; subst e2; subst e3; subst e4
                              exact ⟨hle, rfl⟩
                            · rw [if_neg ht2] at h; cases h
                  · rw [if_neg ht1] at h; cases h

theorem buy_raw_ok {c : Chain} {buyer referrerKey refAcctKey : Pubkey}
    {amount : Nat} {now : Int} {t1 t2 : Bool}
    (h : (buy_gift_card_raw c buyer referrerKey refAcctKey amount now t1 t2).1 = .ok ()) :
    ∃ cm bn fr,
      buy_checks c.solbox buyer referrerKey amount = .ok (cm, bn, fr) ∧
      cm ≤ amount ∧
      (buy_gift_card_raw c buyer referrerKey refAcctKey amount now t1 t2).2 =
        buy_applied c buyer refAcctKey (c.solbox.total_sold + amount)
          (c.solbox.total_commission_distributed + cm)
          (c.solbox.referral_count + 1)
          ((c.users refAcctKey).total_earnings + cm) fr now := by
  unfold buy_gift_card_raw at h ⊢
  cases hk : buy_checks c.solbox buyer referrerKey amount with
  | error e => simp [hk] at h
  | ok v =>
      obtain ⟨cm, bn, fr⟩ := v
      simp only [hk] at h ⊢
      obtain ⟨hle, heq⟩ := buy_mutate_ok h
      exact ⟨cm, bn, fr, rfl, hle, heq⟩

theorem applyOp_buy_ok {c : Chain} {buyer referrerKey refAcctKey : Pubkey}
    {amount : Nat} {now : Int} {t1 t2 : Bool}
    (h : (applyOp c (Op.buyGiftCard buyer referrerKey refAcctKey amount now t1 t2)).1 = .ok ()) :
    ∃ cm bn fr,
      buy_checks c.solbox buyer referrerKey amount = .ok (cm, bn, fr) ∧
      cm ≤ amount ∧
      (applyOp c (Op.buyGiftCard buyer referrerKey refAcctKey amount now t1 t2)).2 =
        buy_applied c buyer refAcctKey (c.solbox.total_sold + amount)
          (c.solbox.total_commission_distributed + cm)
          (c.solbox.referral_count + 1)
          ((c.users refAcctKey).total_earnings + cm) fr now := by
  rcases applyOp_split c (Op.buyGiftCard buyer referrerKey refAcctKey amount now t1 t2) with ⟨e, hE⟩ | ⟨hok, heq⟩
  · rw [hE] at h; cases h
  · have hok2 : (buy_gift_card_raw c buyer referrerKey refAcctKey amount now t1 t2).1 = .ok () := hok
    obtain ⟨cm, bn, fr, hk, hle, h2⟩ := buy_raw_ok hok2
    rw [heq]
    exact ⟨cm, bn, fr, hk, hle, h2⟩

theorem update_config_raw_counters (c : Chain) (a : Pubkey) (cfg : ContractConfig) :
    (update_config_raw c a cfg).2.solbox.total_sold = c.solbox.total_sold ∧
    (update_config_raw c a cfg).2.solbox.total_commission_distributed =
      c.solbox.total_commission_distributed := by
  unfold update_config_raw
  repeat' split
  all_goals simp

theorem toggle_pause_raw_counters (c : Chain) (a : Pubkey) :
    (toggle_pause_raw c a).2.solbox.total_sold = c.solbox.total_sold ∧
    (toggle_pause_raw c a).2.solbox.total_commission_distributed =
      c.solbox.total_commission_distributed := by
  unfold toggle_pause_raw
  repeat' split
  all_goals simp

theorem upgrade_package_raw_counters (c : Chain) (u : Pubkey) (np : Nat) (tok : Bool) :
    (upgrade_package_raw c u np tok).2.solbox.total_sold = c.solbox.total_sold ∧
    (upgrade_package_raw c u np tok).2.solbox.total_commission_distributed =
      c.solbox.total_commission_distributed := by
  unfold upgrade_package_raw
  repeat' split
  all_goals simp

theorem grant_package_raw_counters (c : Chain) (a t : Pubkey) (p : Nat) :
    (grant_package_raw c a t p).2.solbox.total_sold = c.solbox.total_sold ∧
    (grant_package_raw c a t p).2.solbox.total_commission_distributed =
      c.solbox.total_commission_distributed := by
  unfold grant_package_raw
  repeat' split
  all_goals simp

theorem update_commission_config_raw_counters (c : Chain) (a : Pubkey) (p l : Nat) :
    (update_commission_config_raw c a p l).2.solbox.total_sold = c.solbox.total_sold ∧
    (update_commission_config_raw c a p l).2.solbox.total_commission_distributed =
      c.solbox.total_commission_distributed := by
  unfold update_commission_config_raw
  repeat' split
  all_goals simp

theorem add_to_blacklist_raw_counters (c : Chain) (a u : Pubkey) :
    (add_to_blacklist_raw c a u).2.solbox.total_sold = c.solbox.total_sold ∧
    (add_to_blacklist_raw c a u).2.solbox.total_commission_distributed =
      c.solbox.total_commission_distributed := by
  unfold add_to_blacklist_raw
  repeat' split
  all_goals simp

theorem remove_from_blacklist_raw_counters (c : Chain) (a u : Pubkey) :
    (remove_from_blacklist_raw c a u).2.solbox.total_sold = c.solbox.total_sold ∧
    (remove_from_blacklist_raw c a u).2.solbox.total_commission_distributed =
      c.solbox.total_commission_distributed := by
  unfold remove_from_blacklist_raw
  repeat' split
  all_goals simp

theorem step_counters (c : Chain) (op : Op) :
    c.solbox.total_sold ≤ (applyOp c op).2.solbox.total_sold ∧
    c.solbox.total_commission_distributed ≤
      (applyOp c op).2.solbox.total_commission_distributed ∧
    (c.solbox.total_commission_distributed ≤ c.solbox.total_sold →
      (applyOp c op).2.solbox.total_commission_distributed ≤
        (applyOp c op).2.solbox.total_sold) := by
  rcases applyOp_split c op with ⟨e, hE⟩ | ⟨hok, heq⟩
  · rw [hE]; exact ⟨le_refl _, le_refl _, fun hi => hi⟩
  · rw [heq]
    cases op with
    | buyGiftCard buyer referrerKey refAcctKey amount now t1 t2 =>
        have hok2 : (buy_gift_card_raw c buyer referrerKey refAcctKey amount now t1 t2).1 = .ok () := hok
        obtain ⟨cm, bn, fr, hk, hle, h2⟩ := buy_raw_ok hok2
        have h3 : (applyOp_raw c (Op.buyGiftCard buyer referrerKey refAcctKey amount now t1 t2)).2 =
            buy_applied c buyer refAcctKey (c.solbox.total_sold + amount)
              (c.solbox.total_commission_distributed + cm)
              (c.solbox.referral_count + 1)
              ((c.users refAcctKey).total_earnings + cm) fr now := h2
        rw [h3]
        simp only [buy_applied]
        exact ⟨by omega, by omega, fun hi => by omega⟩
    | updateConfig a cfg =>
        simp only [applyOp_raw]
        have h := update_config_raw_counters c a cfg
        exact ⟨le_of_eq h.1.symm, le_of_eq h.2.symm, fun hi => by rw [h.1, h.2]; exact hi⟩
    | togglePause a =>
        simp only [applyOp_raw]
        have h := toggle_pause_raw_counters c a
        exact ⟨le_of_eq h.1.symm, le_of_eq h.2.symm, fun hi => by rw [h.1, h.2]; exact hi⟩
    | upgradePackage u np tok =>
        simp only [applyOp_raw]
        have h := upgrade_package_raw_counters c u np tok
        exact ⟨le_of_eq h.1.symm, le_of_eq h.2.symm, fun hi => by rw [h.1, h.2]; exact hi⟩
    | grantPackage a t p =>
        simp only [applyOp_raw]
        have h := grant_package_raw_counters c a t p
        exact ⟨le_of_eq h.1.symm, le_of_eq h.2.symm, fun hi => by rw [h.1, h.2]; exact hi⟩
    | updateCommissionConfig a p l =>
        simp only [applyOp_raw]
        have h := update_commission_config_raw_counters c a p l
        exact ⟨le_of_eq h.1.symm, le_of_eq h.2.symm, fun hi => by rw [h.1, h.2]; exact hi⟩
    | addToBlacklist a u =>
        simp only [applyOp_raw]
        have h := add_to_blacklist_raw_counters c a u
        exact ⟨le_of_eq h.1.symm, le_of_eq h.2.symm, fun hi => by rw [h.1, h.2]; exact hi⟩
    | removeFromBlacklist a u =>
        simp only [applyOp_raw]
        have h := remove_from_blacklist_raw_counters c a u
        exact ⟨le_of_eq h.1.symm, le_of_eq h.2.symm, fun hi => by rw [h.1, h.2]; exact hi⟩

/-- C5: from any freshly initialized ledger, after any sequence of
committed operations (successful purchases included) the invariant
total_commission_distributed at most total_sold holds, and every single
operation leaves both counters at or above their previous values.  The
invariant rests on the checked founder-share subtraction: a purchase can
only succeed when its commission does not exceed its amount. -/
theorem counters_monotone (owner founder : Pubkey) (cfg : ContractConfig)
    (ops : List Op) :
    (runOps (initChain owner founder cfg) ops).solbox.total_commission_distributed ≤
      (runOps (initChain owner founder cfg) ops).solbox.total_sold ∧
    ∀ (c : Chain) (op : Op),
      c.solbox.total_sold ≤ (applyOp c op).2.solbox.total_sold ∧
      c.solbox.total_commission_distributed ≤
        (applyOp c op).2.solbox.total_commission_distributed := by
  constructor
  · have main : ∀ (l : List Op) (c : Chain),
        c.solbox.total_commission_distributed ≤ c.solbox.total_sold →
        (runOps c l).solbox.total_commission_distributed ≤
          (runOps c l).solbox.total_sold := by
      intro l
      induction l with
      | nil => intro c h; exact h
      | cons op rest ih =>
          intro c h
          simp only [runOps]
          exact ih _ ((step_counters c op).2.2 h)
    exact main ops (initChain owner founder cfg) (by simp [initChain, init_solbox])
  · intro c op
    exact ⟨(step_counters c op).1, (step_counters c op).2.1⟩

/-- Counterexample to C6 as stated: two successful purchases by the same
buyer are accepted — buy_gift_card never checks that the buyer is new — so
principal 5 appears twice as user in the reachable relationship history. -/
theorem user_appears_twice_cex :
    (applyOp chain0 buyU).1 = .ok () ∧
    (applyOp (applyOp chain0 buyU).2 buyU).1 = .ok () ∧
    ((runOps chain0 [buyU, buyU]).solbox.referral_relationships.filter
      (fun rel => rel.user == 5)).length = 2 :=
  ⟨rfl, rfl, rfl⟩

/-- C6 amended: referral_relationships is append-only — every successful
buy_gift_card appends exactly one entry, whose user field is the buyer —
but nothing enforces uniqueness of the user field, so a principal that
purchases repeatedly appears as user once per purchase. -/
theorem buy_appends_single_relationship (c : Chain)
    (buyer referrerKey refAcctKey : Pubkey) (amount : Nat) (now : Int)
    (t1 t2 : Bool)
    (h : (applyOp c (Op.buyGiftCard buyer referrerKey refAcctKey amount now t1 t2)).1 = .ok ()) :
    ∃ fr, (applyOp c (Op.buyGiftCard buyer referrerKey refAcctKey amount now t1 t2)).2.solbox.referral_relationships =
      c.solbox.referral_relationships ++ [{ user := buyer, referrer := fr, timestamp := now }] := by
  obtain ⟨cm, bn, fr, hk, hle, heq⟩ := applyOp_buy_ok h
  refine ⟨fr, ?_⟩
  rw [heq]
  simp [buy_applied, pushRel]

/-- Witness for C6 amended: the concrete first purchase appends one entry
with user 5. -/
theorem buy_appends_single_relationship_witness :
    (applyOp chain0 buyU).1 = .ok () ∧
    ∃ fr, (applyOp chain0 buyU).2.solbox.referral_relationships =
      chain0.solbox.referral_relationships ++ [{ user := 5, referrer := fr, timestamp := 0 }] :=
  ⟨rfl, buy_appends_single_relationship chain0 5 6 6 200 0 true true rfl⟩

/-- C8: when every referrer recorded in the history is at capacity and the
requested referrer is too, find_spillover_position returns none and the
purchase — otherwise well-formed — fails with NoSpilloverAvailable, the
committed ledger being exactly the pre-state. -/
theorem exhaustion_no_spillover (c : Chain) (buyer referrerKey refAcctKey : Pubkey)
    (amount : Nat) (now : Int) (t1 t2 : Bool)
    (hinv : c.solbox.referral_count = c.solbox.referral_relationships.length)
    (hR : c.solbox.config.referral_limit ≤
      referralCounts c.solbox.referral_relationships referrerKey)
    (hall : ∀ rel ∈ c.solbox.referral_relationships,
      c.solbox.config.referral_limit ≤
        referralCounts c.solbox.referral_relationships rel.referrer)
    (hp : c.solbox.paused = false)
    (hb : c.solbox.blacklisted_users.contains buyer = false)
    (ha : c.solbox.config.valid_amounts.contains amount = true)
    (hs : buyer ≠ referrerKey)
    (hm1 : amount * c.solbox.config.commission_percentage < U64_MOD)
    (hm2 : amount * c.solbox.config.bonus_percentage < U64_MOD) :
    find_spillover_position c.solbox.referral_relationships referrerKey
      c.solbox.config.referral_limit = none ∧
    applyOp c (Op.buyGiftCard buyer referrerKey refAcctKey amount now t1 t2) =
      (.error (.custom .NoSpilloverAvailable), c) := by
  have hnone : find_spillover_position c.solbox.referral_relationships referrerKey
      c.solbox.config.referral_limit = none := by
    unfold find_spillover_position
    rw [if_neg (Nat.not_lt.mpr hR)]
    exact find_first_under_limit_none _ _ _ fun rel hrel => Nat.not_lt.mpr (hall rel hrel)
  refine ⟨hnone, ?_⟩
  have hguard : c.solbox.config.referral_limit ≤ c.solbox.referral_count := by
    have := referralCounts_le_length c.solbox.referral_relationships referrerKey
    omega
  have hdr : dispatch_referrer c.solbox referrerKey = none := by
    unfold dispatch_referrer
    rw [if_pos hguard]
    exact hnone
  have hcm : compute_commission amount c.solbox.config.commission_percentage =
      some (amount * c.solbox.config.commission_percentage / 100) := by
    unfold compute_commission checked_mul checked_div
    rw [if_pos hm1]
    simp
  have hbn : compute_bonus amount c.solbox.config.bonus_percentage =
      some (amount * c.solbox.config.bonus_percentage / 100) := by
    unfold compute_bonus checked_mul checked_div
    rw [if_pos hm2]
    simp
  have hchecks : buy_checks c.solbox buyer referrerKey amount =
      .error (.custom .NoSpilloverAvailable) := by
    unfold buy_checks
    rw [hp, hb, ha]
    simp only [Bool.false_eq_true, if_false, if_true]
    rw [if_neg hs]
    rw [hcm, hbn, hdr]
  have hraw : applyOp_raw c (Op.buyGiftCard buyer referrerKey refAcctKey amount now t1 t2) =
      (.error (.custom .NoSpilloverAvailable), c) := by
    show buy_gift_card_raw c buyer referrerKey refAcctKey amount now t1 t2 = _
    unfold buy_gift_card_raw
    rw [hchecks]
  simp [applyOp, hraw]

/-- Witness for C8 on the concrete exhausted ledger chainEx (limit 1, the
single referrer 7 saturated). -/
theorem exhaustion_no_spillover_witness :
    (chainEx.solbox.referral_count = chainEx.solbox.referral_relationships.length ∧
     chainEx.solbox.config.referral_limit ≤
       referralCounts chainEx.solbox.referral_relationships 7 ∧
     (∀ rel ∈ chainEx.solbox.referral_relationships,
       chainEx.solbox.config.referral_limit ≤
         referralCounts chainEx.solbox.referral_relationships rel.referrer) ∧
     chainEx.solbox.paused = false ∧
     chainEx.solbox.blacklisted_users.contains 5 = false ∧
     chainEx.solbox.config.valid_amounts.contains 200 = true ∧
     (5 : Pubkey) ≠ 7 ∧
     200 * chainEx.solbox.config.commission_percentage < U64_MOD ∧
     200 * chainEx.solbox.config.bonus_percentage < U64_MOD) ∧
    (find_spillover_position chainEx.solbox.referral_relationships 7
       chainEx.solbox.config.referral_limit = none ∧
     applyOp chainEx (Op.buyGiftCard 5 7 7 200 0 true true) =
       (.error (.custom .NoSpilloverAvailable), chainEx)) :=
  ⟨⟨by decide, by decide, by decide, by decide, by decide, by decide, by decide,
    by decide, by decide⟩,
   exhaustion_no_spillover chainEx 5 7 7 200 0 true true (by decide) (by decide)
     (by decide) (by decide) (by decide) (by decide) (by decide) (by decide) (by decide)⟩

theorem upgrade_raw_ok {c : Chain} {userKey : Pubkey} {np : Nat} {tok : Bool}
    (h : (upgrade_package_raw c userKey np tok).1 = .ok ()) :
    (upgrade_package_raw c userKey np tok).2 =
      { c with users := updateUser c.users userKey { c.users userKey with current_package := np } } := by
  unfold upgrade_package_raw at h ⊢
  by_cases h1 : c.solbox.paused = true
  · rw [if_pos h1] at h; cases h
  rw [if_neg h1] at h ⊢
  by_cases h2 : c.solbox.blacklisted_users.contains userKey = true
  · rw [if_pos h2] at h; cases h
  rw [if_neg h2] at h ⊢
  by_cases h3 : c.solbox.config.valid_amounts.contains np = true
  · rw [if_pos h3] at h ⊢
    by_cases h4 : (c.users userKey).current_package < np
    · rw [if_pos h4] at h ⊢
      cases h5 : checked_sub np (c.users userKey).current_package with
      | none => simp [h5] at h
      | some d =>
          simp only [h5] at h ⊢
          by_cases h6 : tok = true
          · rw [if_pos h6]
          · rw [if_neg h6] at h; cases h
    · rw [if_neg h4] at h; cases h
  · rw [if_neg h3] at h; cases h

/-- C9: a successful upgrade_package changes only the calling user account
current_package field: the whole SolBox account is untouched, the user's
key and total_earnings are unchanged, and every other user account is
unchanged. -/
theorem upgrade_package_frame (c : Chain) (userKey : Pubkey) (np : Nat) (tok : Bool)
    (h : (applyOp c (Op.upgradePackage userKey np tok)).1 = .ok ()) :
    (applyOp c (Op.upgradePackage userKey np tok)).2.solbox = c.solbox ∧
    ((applyOp c (Op.upgradePackage userKey np tok)).2.users userKey).total_earnings =
      (c.users userKey).total_earnings ∧
    ((applyOp c (Op.upgradePackage userKey np tok)).2.users userKey).key =
      (c.users userKey).key ∧
    ((applyOp c (Op.upgradePackage userKey np tok)).2.users userKey).current_package = np ∧
    ∀ k, k ≠ userKey →
      (applyOp c (Op.upgradePackage userKey np tok)).2.users k = c.users k := by
  rcases applyOp_split c (Op.upgradePackage userKey np tok) with ⟨e, hE⟩ | ⟨hok, heq⟩
  · rw [hE] at h; cases h
  · rw [heq]
    have hok2 : (upgrade_package_raw c userKey np tok).1 = .ok () := hok
    have h2 : (applyOp_raw c (Op.upgradePackage userKey np tok)).2 =
        { c with users := updateUser c.users userKey { c.users userKey with current_package := np } } :=
      upgrade_raw_ok hok2
    rw [h2]
    refine ⟨rfl, ?_, ?_, ?_, ?_⟩
    · simp [updateUser]
    · simp [updateUser]
    · simp [updateUser]
    · intro k hk
      simp [updateUser, hk]

/-- Witness for C9: user 5 upgrades from package 0 to 1000 on the fresh
ledger. -/
theorem upgrade_package_frame_witness :
    (applyOp chain0 (Op.upgradePackage 5 1000 true)).1 = .ok () ∧
    ((applyOp chain0 (Op.upgradePackage 5 1000 true)).2.solbox = chain0.solbox ∧
     ((applyOp chain0 (Op.upgradePackage 5 1000 true)).2.users 5).total_earnings =
       (chain0.users 5).total_earnings ∧
     ((applyOp chain0 (Op.upgradePackage 5 1000 true)).2.users 5).key =
       (chain0.users 5).key ∧
     ((applyOp chain0 (Op.upgradePackage 5 1000 true)).2.users 5).current_package = 1000 ∧
     ∀ k, k ≠ 5 →
       (applyOp chain0 (Op.upgradePackage 5 1000 true)).2.users k = chain0.users k) :=
  ⟨rfl, upgrade_package_frame chain0 5 1000 true rfl⟩

/-- C10: grant_package is a blind set — whenever the caller is the owner
and the package is a valid denomination it succeeds, regardless of the
paused flag and the blacklist, leaves the SolBox account untouched, and
overwrites current_package without comparing to the previous value, so it
strictly decreases it whenever the granted package is smaller. -/
theorem grant_package_unconditional (c : Chain) (admin target : Pubkey)
    (package : Nat) (hadm : admin = c.solbox.owner)
    (hval : c.solbox.config.valid_amounts.contains package = true) :
    (applyOp c (Op.grantPackage admin target package)).1 = .ok () ∧
    ((applyOp c (Op.grantPackage admin target package)).2.users target).current_package = package ∧
    (applyOp c (Op.grantPackage admin target package)).2.solbox = c.solbox ∧
    (package < (c.users target).current_package →
      ((applyOp c (Op.grantPackage admin target package)).2.users target).current_package <
        (c.users target).current_package) := by
  have hraw : applyOp_raw c (Op.grantPackage admin target package) =
      (.ok (), { c with users := updateUser c.users target { c.users target with current_package := package } }) := by
    show grant_package_raw c admin target package = _
    unfold grant_package_raw
    rw [if_pos hadm, if_pos hval]
  refine ⟨?_, ?_, ?_, ?_⟩
  · simp [applyOp, hraw]
  · simp [applyOp, hraw, updateUser]
  · simp [applyOp, hraw]
  · intro hlt
    simpa [applyOp, hraw, updateUser] using hlt

/-- Witness for C10: on a paused ledger whose blacklist contains user 5
and where user 5 already holds package 3000, the owner grants package 200,
which succeeds and strictly downgrades the account. -/
theorem grant_package_unconditional_witness :
    ((1 : Pubkey) = chainGrant.solbox.owner ∧
     chainGrant.solbox.config.valid_amounts.contains 200 = true ∧
     chainGrant.solbox.paused = true ∧
     chainGrant.solbox.blacklisted_users.contains 5 = true ∧
     (chainGrant.users 5).current_package = 3000) ∧
    ((applyOp chainGrant (Op.grantPackage 1 5 200)).1 = .ok () ∧
     ((applyOp chainGrant (Op.grantPackage 1 5 200)).2.users 5).current_package = 200 ∧
     (applyOp chainGrant (Op.grantPackage 1 5 200)).2.solbox = chainGrant.solbox ∧
     (200 < (chainGrant.users 5).current_package →
       ((applyOp chainGrant (Op.grantPackage 1 5 200)).2.users 5).current_package <
         (chainGrant.users 5).current_package)) :=
  ⟨⟨rfl, rfl, rfl, rfl, rfl⟩,
   grant_package_unconditional chainGrant 1 5 200 rfl rfl⟩

end Solbox
